import Mathlib

/-!
Verification of the order-analysis pipeline (`app2.py` / `sales_06.py`).

The two scripts load an order ledger (`Working`) and a product master (`pm`),
normalize identifiers, build VLOOKUP-style maps keyed by `asin`, enrich the
orders, filter them, and emit four aggregate views.  We embed the pipeline
shallowly: a spreadsheet cell is a string, a number, or NaN; a table is a
`List` of records; every pandas step used by the scripts is translated to an
executable Lean function on those lists.  Numeric cells are modelled over
`Int` (the inputs exercised here are integral, and every property proved is
structural: filters, lookups, sums and sort orders).

Comments of the form `-- app2.py:NN` point at the source lines embedded.
-/

set_option maxRecDepth 20000

namespace SalesReport

/-! ## Character and string primitives

`str.strip` / `.lower`, substring tests and string comparison are re-implemented
over `List Char` so that all definitions evaluate by kernel reduction. -/

def isWsChar (c : Char) : Bool :=
  c = ' ' || c = '\t' || c = '\n' || c = '\r'

def dropWsL : List Char → List Char
  | [] => []
  | c :: cs => if isWsChar c then dropWsL cs else c :: cs

/-- `str.strip()`: remove leading and trailing whitespace. -/
def trimChars (cs : List Char) : List Char :=
  (dropWsL (dropWsL cs.reverse).reverse)

def strTrim (s : String) : String := String.mk (trimChars s.data)

def lowerChar (c : Char) : Char :=
  if 'A' ≤ c ∧ c ≤ 'Z' then Char.ofNat (c.toNat + 32) else c

/-- `str.lower()` for the ASCII column labels used by the scripts. -/
def strLower (s : String) : String := String.mk (s.data.map lowerChar)

def prefOfL : List Char → List Char → Bool
  | [], _ => true
  | _ :: _, [] => false
  | a :: as, b :: bs => a = b && prefOfL as bs

def segOfL (needle : List Char) : List Char → Bool
  | [] => needle.isEmpty
  | c :: cs => prefOfL needle (c :: cs) || segOfL needle cs

/-- Python's `needle in hay` substring test. -/
def strContains (hay needle : String) : Bool := segOfL needle.data hay.data

def charLtB (a b : Char) : Bool := decide (a < b)

/-- Lexicographic strict order on character lists (string comparison). -/
def strLtL : List Char → List Char → Bool
  | [], [] => false
  | [], _ :: _ => true
  | _ :: _, [] => false
  | a :: as, b :: bs => charLtB a b || (a = b && strLtL as bs)

def strLtB (a b : String) : Bool := strLtL a.data b.data

/-! ## Integer rendering and parsing

`astype(str)` rendering of a numeric cell, and the numeral fragment of
`pd.to_numeric(errors="coerce")` (optionally signed decimal digit strings;
any other text coerces to NaN, i.e. `none`). -/

def natDigitsAux : Nat → Nat → List Char
  | 0, _ => []
  | fuel + 1, n =>
      if n = 0 then [] else natDigitsAux fuel (n / 10) ++ [Char.ofNat (48 + n % 10)]

def natToStr (n : Nat) : String :=
  if n = 0 then "0" else String.mk (natDigitsAux (n + 1) n)

def intToStr : Int → String
  | .ofNat n => natToStr n
  | .negSucc n => String.mk ('-' :: (natToStr (n + 1)).data)

def digitVal (c : Char) : Option Nat :=
  if '0' ≤ c ∧ c ≤ '9' then some (c.toNat - '0'.toNat) else none

def parseNatL (cs : List Char) : Option Nat :=
  match cs with
  | [] => none
  | _ => cs.foldl (fun acc c => acc.bind (fun n => (digitVal c).map (fun d => n * 10 + d)))
      (some 0)

def parseIntL : List Char → Option Int
  | '-' :: rest => (parseNatL rest).map (fun n => -(n : Int))
  | '+' :: rest => (parseNatL rest).map (fun n => (n : Int))
  | cs => (parseNatL cs).map (fun n => (n : Int))

/-- `pd.to_numeric(errors="coerce")` on one text value: `none` models NaN. -/
def parseNumStr (s : String) : Option Int := parseIntL (trimChars s.data)

/-! ## Cells

One spreadsheet value: a number, a piece of text, or NaN/missing (`null`). -/

inductive Cell where
  | num : Int → Cell
  | text : String → Cell
  | null : Cell
deriving DecidableEq

/-- `pd.to_numeric(errors="coerce")` on one cell. -/
def Cell.toNum : Cell → Option Int
  | .num n => some n
  | .text s => parseNumStr s
  | .null => none

/-- `astype(str)` on one cell; NaN renders as the text `"nan"`. -/
def Cell.toStr : Cell → String
  | .num n => intToStr n
  | .text s => s
  | .null => "nan"

/-- pandas comparison used by `sort_values` / `sort_index`; the scripts only
compare homogeneous (all-text or all-numeric) key columns, and the cross-tag
cases are fixed arbitrarily to keep the order total. -/
def cellLtB : Cell → Cell → Bool
  | .num a, .num b => decide (a < b)
  | .num _, .text _ => true
  | .text _, .num _ => false
  | .text a, .text b => strLtB a b
  | .null, .null => false
  | .null, _ => true
  | _, .null => false

/-- Strict order on optional sort keys: NaN (`none`) sorts last
(pandas `na_position="last"` default of `sort_values`). -/
def okLtB : Option Cell → Option Cell → Bool
  | some a, some b => cellLtB a b
  | some _, none => true
  | none, _ => false

def natLtB (a b : Nat) : Bool := decide (a < b)

/-- descending comparison on an integer column (`ascending=False`). -/
def intGtB (a b : Int) : Bool := decide (b < a)

/-- Lexicographic strict order on a pair, from strict orders on the parts. -/
def lexLtB {α β : Type} [DecidableEq α] (la : α → α → Bool) (lb : β → β → Bool)
    (x y : α × β) : Bool :=
  la x.1 y.1 || (decide (x.1 = y.1) && lb x.2 y.2)

/-- `lt` is transitive, asymmetric, and any two unrelated values are equal:
exactly what a pandas multi-column sort key provides. -/
def StrictOrd {α : Type} (lt : α → α → Bool) : Prop :=
  (∀ a b c, lt a b = true → lt b c = true → lt a c = true)
  ∧ (∀ a b, lt a b = true → lt b a = false)
  ∧ (∀ a b, lt a b = false → lt b a = false → a = b)

/-! ## Generic table helpers

`firstKeys` lists the distinct values of a key column (the set of groups a
pandas `groupby` forms — the order in which pandas lists groups is irrelevant
to every property proved below); `sumBy` is a column sum. -/

def firstKeysAux {α : Type} [DecidableEq α] (seen : List α) : List α → List α
  | [] => []
  | a :: as =>
      if a ∈ seen then firstKeysAux seen as else a :: firstKeysAux (a :: seen) as

def firstKeys {α : Type} [DecidableEq α] (l : List α) : List α := firstKeysAux [] l

def sumBy {α : Type} (l : List α) (f : α → Int) : Int := (l.map f).sum

/-! ## Product master (`pm`) side

`PmRow` is one raw row of `PM.xlsx` restricted to the five columns the
pipeline reads; `PmClean` is a row after Step 3 (`asin` as stripped text). -/

structure PmRow where
  asin : Cell
  bmVal : Cell
  brandVal : Cell
  vendorVal : Cell
  cpVal : Cell
deriving DecidableEq

structure PmClean where
  asin : String
  bmVal : Cell
  brandVal : Cell
  vendorVal : Cell
  cpVal : Cell
deriving DecidableEq

/-- `pm["asin"] = pm["asin"].astype(str).str.strip()`  -- app2.py:68 -/
def pmNormalize (r : PmRow) : PmClean :=
  ⟨strTrim r.asin.toStr, r.bmVal, r.brandVal, r.vendorVal, r.cpVal⟩

/-- `pm = pm[(pm["asin"] != "") & (pm["asin"].notna()) & (pm["asin"] != "nan")]`
-- app2.py:70; after `astype(str)` the `notna()` conjunct is vacuous. -/
def pmCleaned (pm : List PmRow) : List PmClean :=
  (pm.map pmNormalize).filter (fun r => r.asin ≠ "" && r.asin ≠ "nan")

def dedupFirstAux (seen : List String) : List PmClean → List PmClean
  | [] => []
  | r :: rs =>
      if r.asin ∈ seen then dedupFirstAux seen rs
      else r :: dedupFirstAux (r.asin :: seen) rs

/-- `pm_unique = pm.drop_duplicates(subset="asin", keep="first")` -- app2.py:76 -/
def pmUnique (pm : List PmRow) : List PmClean := dedupFirstAux [] (pmCleaned pm)

/-- `pm_unique.set_index("asin")[col]` followed by `Working["asin"].map(...)`:
exact-key lookup of one attribute, NaN (`none`) when the key is absent. -/
def lookCell (l : List PmClean) (f : PmClean → Cell) (k : String) : Option Cell :=
  (l.find? (fun r => r.asin == k)).map f

/-! ## Column detection (Step 4/5/6 header resolution)

Operates on `pm.columns` after Step 2 normalization (labels stripped and
lower-cased).  A `none` result models the raw `IndexError` Python raises at
`[...][0]` on an empty candidate list or at `pm.columns[i]` on a short header. -/

/-- `[c for c in pm.columns if "brand" in c and "manager" in c][0]` -- app2.py:74 -/
def bmColDetect (cols : List String) : Option String :=
  (cols.filter (fun c => strContains c "brand" && strContains c "manager")).head?

/-- `[c for c in pm.columns if c == "brand"][0]` -- app2.py:75 -/
def brandColDetect (cols : List String) : Option String :=
  (cols.filter (fun c => c == "brand")).head?

def vendorColNames : List String :=
  ["vendor sku", "vendor_sku", "vendor sku code", "vendor_sku_code"]

/-- vendor column by accepted names, else 4th column ordinal -- app2.py:88-96 -/
def vendorColDetect (cols : List String) : Option String :=
  match cols.filter (fun c => vendorColNames.contains c) with
  | c :: _ => some c
  | [] => cols.get? 3

def cpColNames : List String := ["cp", "cost price", "cost"]

/-- cost column by accepted names, else 8th column ordinal -- app2.py:106-110 -/
def cpColDetect (cols : List String) : Option String :=
  match cols.filter (fun c => cpColNames.contains c) with
  | c :: _ => some c
  | [] => cols.get? 7

/-- The exceptions the detection code can actually raise.  There is no
dedicated error class in either script; the top-level handler
(`except Exception as e: st.error(f"... str(e) ...")` -- app2.py:438-440)
displays the raw Python message. -/
inductive DetectError where
  | listIndex
  | colsIndex : Nat → DetectError
deriving DecidableEq

/-- `str(e)` for the two raw exceptions (Python's `IndexError` texts). -/
def errMessage : DetectError → String
  | .listIndex => "list index out of range"
  | .colsIndex _ => "index out of bounds for axis 0"

/-- Header resolution in pipeline order: brand-manager, brand (Step 4),
vendor (Step 5), cost (Step 6); the first unresolvable column aborts the run. -/
def resolveRefCols (cols : List String) :
    Except DetectError (String × String × String × String) :=
  match bmColDetect cols with
  | none => .error .listIndex
  | some c1 =>
    match brandColDetect cols with
    | none => .error .listIndex
    | some c2 =>
      match vendorColDetect cols with
      | none => .error (.colsIndex 3)
      | some c3 =>
        match cpColDetect cols with
        | none => .error (.colsIndex 7)
        | some c4 => .ok (c1, c2, c3, c4)

/-! ## Orders side: raw rows, enrichment (Steps 3-6 on `Working`) -/

structure OrderRow where
  asin : Cell
  quantity : Cell
  itemPrice : Cell
  productName : Cell
  itemStatus : Cell
  datev : Nat
deriving DecidableEq

structure Enriched where
  asin : String
  quantity : Cell
  itemPrice : Cell
  productName : Cell
  itemStatus : Cell
  datev : Nat
  brandManager : Option Cell
  brand : Option Cell
  vendorSku : Cell
  cost : Int
deriving DecidableEq

/-- `Working["cost"] = pd.to_numeric(Working["asin"].map(cp_map), errors="coerce").fillna(0)`
-- app2.py:113-115 -/
def costOf (oc : Option Cell) : Int := ((oc.bind Cell.toNum).getD 0)

/-- Steps 3-6 on one order row (`app2.py` variant):
`asin` to stripped text (app2.py:69), Brand Manager / Brand via `.map`
(app2.py:81-82), Vendor SKU via `.map` then `.astype(str)` (app2.py:99-100),
cost via `.map`, numeric coercion and `fillna(0)` (app2.py:113-115).
Column repositioning (app2.py:120-136) permutes labels only and is not part
of the record state. -/
def enrich (pmU : List PmClean) (o : OrderRow) : Enriched :=
  let k := strTrim o.asin.toStr
  { asin := k
    quantity := o.quantity
    itemPrice := o.itemPrice
    productName := o.productName
    itemStatus := o.itemStatus
    datev := o.datev
    brandManager := lookCell pmU (fun r => r.bmVal) k
    brand := lookCell pmU (fun r => r.brandVal) k
    vendorSku := .text (match lookCell pmU (fun r => r.vendorVal) k with
      | some c => c.toStr
      | none => "nan")
    cost := costOf (lookCell pmU (fun r => r.cpVal) k) }

def enrichAll (pm : List PmRow) (os : List OrderRow) : List Enriched :=
  os.map (enrich (pmUnique pm))

/-! ## Step 7 filtering  -- app2.py:140-150 (identically sales_06.py:110-120) -/

/-- elementwise pandas `series != 0`: NaN and text compare unequal to 0. -/
def cellNeZero : Cell → Bool
  | .num n => decide (n ≠ 0)
  | .text _ => true
  | .null => true

/-- `Working = Working[Working["quantity"] != 0]` -- app2.py:142 -/
def keepQuantity (r : Enriched) : Bool := cellNeZero r.quantity

/-- `Working["item-price"] = pd.to_numeric(Working["item-price"], errors="coerce")`
-- app2.py:143: the price column is overwritten in place. -/
def coercePriceCell (c : Cell) : Cell :=
  match c.toNum with
  | some n => .num n
  | none => .null

def coercePrice (r : Enriched) : Enriched := { r with itemPrice := coercePriceCell r.itemPrice }

/-- `Working = Working[Working["item-price"] != 0]` -- app2.py:144 -/
def keepPrice (r : Enriched) : Bool := cellNeZero r.itemPrice

/-- `notna() & (astype(str).str.strip() != "-") & (astype(str).str.strip() != "")`
-- app2.py:145-149 -/
def keepName (r : Enriched) : Bool :=
  match r.productName with
  | .null => false
  | c => (strTrim c.toStr ≠ "-") && (strTrim c.toStr ≠ "")

/-- `Working = Working[Working["item-status"] != "Cancelled"]` -- app2.py:150;
a NaN or numeric status compares unequal and is kept. -/
def keepStatus (r : Enriched) : Bool :=
  match r.itemStatus with
  | .text s => decide (s ≠ "Cancelled")
  | _ => true

/-- Step 7 exactly as sequenced in the source. -/
def filterStage (l : List Enriched) : List Enriched :=
  ((((l.filter keepQuantity).map coercePrice).filter keepPrice).filter
    keepName).filter keepStatus

/-- Modelled from the spec (§4.5, claim C1's wording): retention predicate in
which a price whose numeric coercion fails counts as NOT satisfying `≠ 0`,
so the row is dropped.  Kept for comparison against `filterStage`. -/
def retainSpec (r : Enriched) : Bool :=
  cellNeZero r.quantity
  && (match r.itemPrice.toNum with
      | some n => decide (n ≠ 0)
      | none => false)
  && keepName r && keepStatus r

/-- The retention predicate the code implements: coercion failure yields NaN,
`NaN != 0` is `True`, and the row is RETAINED. -/
def retainAmended (r : Enriched) : Bool :=
  cellNeZero r.quantity
  && (match r.itemPrice.toNum with
      | some n => decide (n ≠ 0)
      | none => true)
  && keepName r && keepStatus r

/-- Same predicate read off a raw order row (the filter only touches fields
that enrichment copies verbatim from the order). -/
def retainBase (o : OrderRow) : Bool :=
  cellNeZero o.quantity
  && (match o.itemPrice.toNum with
      | some n => decide (n ≠ 0)
      | none => true)
  && (match o.productName with
      | .null => false
      | c => (strTrim c.toStr ≠ "-") && (strTrim c.toStr ≠ ""))
  && (match o.itemStatus with
      | .text s => decide (s ≠ "Cancelled")
      | _ => true)

/-! ## Aggregation: group keys and numeric projections -/

/-- A pivot/groupby key: a mapped value that is itself NaN behaves like a
missing lookup — both are NaN keys. -/
def cellKeyOf : Option Cell → Option Cell
  | some Cell.null => none
  | some c => some c
  | none => none

def bmKey (r : Enriched) : Option Cell := cellKeyOf r.brandManager

def brandKey (r : Enriched) : Option Cell := cellKeyOf r.brand

/-- quantity as summed by `aggfunc="sum"` (NaN contributes 0, `skipna`). -/
def qtyNum (r : Enriched) : Int := (r.quantity.toNum).getD 0

def priceNum (r : Enriched) : Int := (r.itemPrice.toNum).getD 0

/-! ## Views A and B  (Manager x Date, Brand x Date)  -- app2.py:203-210, 243-250

`pd.pivot_table(Working, index=key, columns="date", values=["quantity",
"item-price"], aggfunc="sum", fill_value=0)`: rows whose index key is NaN are
dropped by the groupby underlying `pivot_table`; the date columns are shared
across all rows, absent combinations filled with 0. -/

def dateCols (l : List Enriched) : List Nat := firstKeys (l.map (fun r => r.datev))

def rowKeysBy (l : List Enriched) (key : Enriched → Option Cell) : List Cell :=
  firstKeys (l.filterMap key)

/-- one pivot cell: summed quantity for (index value `k`, date `d`). -/
def pivotCellQty (l : List Enriched) (key : Enriched → Option Cell) (k : Cell)
    (d : Nat) : Int :=
  sumBy (l.filter (fun r => decide (key r = some k) && decide (r.datev = d))) qtyNum

/-- the total quantity of one pivot row (across all date columns). -/
def viewRowQty (l : List Enriched) (key : Enriched → Option Cell) (k : Cell) : Int :=
  ((dateCols l).map (pivotCellQty l key k)).sum

/-- sum of quantity over all per-row values of the pivot. -/
def viewQtyTotal (l : List Enriched) (key : Enriched → Option Cell) : Int :=
  ((rowKeysBy l key).map (viewRowQty l key)).sum

/-- View A: `index="Brand Manager"` -- app2.py:203-210 -/
def viewAQtyTotal (l : List Enriched) : Int := viewQtyTotal l bmKey

/-- View B: `index="Brand"` -- app2.py:243-250 -/
def viewBQtyTotal (l : List Enriched) : Int := viewQtyTotal l brandKey

/-! ## View C  (Brand & ASIN summary)  -- app2.py:282-311, sales_06.py:222-251

Both variants group by the (asin, Brand) pair, sort the group rows by Brand
then asin, and append one synthetic Grand Total row.  They differ in the
ORDER of the two index levels: `app2.py` uses `index=["asin","Brand"]`,
`sales_06.py` uses `index=["Brand","asin"]`; both then build the total row
from the same tuple `("Grand Total", "")`, which therefore lands in
different slots. -/

structure CRow where
  brandSlot : Cell
  asinSlot : String
  qty : Int
  price : Int
  cost : Int
deriving DecidableEq

/-- strict sort key of `sort_index(level=["Brand", "asin"])`. -/
def cPairLtB (a b : Cell × String) : Bool := lexLtB cellLtB strLtB a b

def cPairLeB (a b : Cell × String) : Bool := !(cPairLtB b a)

/-- the (Brand, asin) group keys; a NaN Brand drops the row (pivot groupby). -/
def cPairs (l : List Enriched) : List (Cell × String) :=
  firstKeys (l.filterMap (fun r => (brandKey r).map (fun b => (b, r.asin))))

def cGroupRow (l : List Enriched) (k : Cell × String) : CRow :=
  let g := l.filter (fun r => decide (brandKey r = some k.1) && decide (r.asin = k.2))
  ⟨k.1, k.2, sumBy g qtyNum, sumBy g priceNum, sumBy g (fun r => r.cost)⟩

/-- the sorted data rows of View C (shared by both variants). -/
def cRows (l : List Enriched) : List CRow :=
  (List.insertionSort (fun a b => cPairLeB a b = true) (cPairs l)).map (cGroupRow l)

/-- `pivot_Brand_ASIN.sum(numeric_only=True)` packed into the index tuple
`("Grand Total", "")` with names `("asin", "Brand")` -- app2.py:301-307:
the identifier slot reads "Grand Total", the brand slot is empty. -/
def cGrandApp2 (rows : List CRow) : CRow :=
  ⟨.text "", "Grand Total", sumBy rows (fun r => r.qty), sumBy rows (fun r => r.price),
    sumBy rows (fun r => r.cost)⟩

def viewCApp2 (l : List Enriched) : List CRow := cRows l ++ [cGrandApp2 (cRows l)]

/-- same tuple `("Grand Total", "")` but with index names `("Brand", "asin")`
-- sales_06.py:241-247: "Grand Total" lands in the BRAND slot and the
identifier slot is empty. -/
def cGrandSales06 (rows : List CRow) : CRow :=
  ⟨.text "Grand Total", "", sumBy rows (fun r => r.qty), sumBy rows (fun r => r.price),
    sumBy rows (fun r => r.cost)⟩

def viewCSales06 (l : List Enriched) : List CRow := cRows l ++ [cGrandSales06 (cRows l)]

/-! ## View D  (BM / Brand / ASIN with subtotals)  -- app2.py:328-402 -/

structure DRow where
  bmSlot : Option Cell
  brandSlot : Option Cell
  asinSlot : String
  qty : Int
  price : Int
  cost : Int
  ordv : Nat
deriving DecidableEq

/-- groupby key of `Working.groupby(["asin","Brand Manager","Brand"],
dropna=False)` -- app2.py:333-338; NaN keys are kept (`dropna=False`). -/
def dKey (r : Enriched) : String × Option Cell × Option Cell :=
  (r.asin, bmKey r, brandKey r)

def dBaseKeys (l : List Enriched) : List (String × Option Cell × Option Cell) :=
  firstKeys (l.map dKey)

/-- one base row: group sums plus `order = 0` -- app2.py:333-340 -/
def dGroupRow (l : List Enriched) (k : String × Option Cell × Option Cell) : DRow :=
  let g := l.filter (fun r => decide (dKey r = k))
  ⟨k.2.1, k.2.2, k.1, sumBy g qtyNum, sumBy g priceNum, sumBy g (fun r => r.cost), 0⟩

/-- sort key of `base.sort_values(by=["Brand Manager","Brand","quantity"],
ascending=[True,True,False])` -- app2.py:341-344 -/
def baseLtB (a b : DRow) : Bool :=
  lexLtB okLtB (lexLtB okLtB intGtB)
    (a.bmSlot, a.brandSlot, a.qty) (b.bmSlot, b.brandSlot, b.qty)

def baseLeB (a b : DRow) : Bool := !(baseLtB b a)

def dBase (l : List Enriched) : List DRow :=
  List.insertionSort (fun a b => baseLeB a b = true) ((dBaseKeys l).map (dGroupRow l))

/-- the (Brand Manager, Brand) keys of `base.groupby(["Brand Manager","Brand"])`
-- app2.py:347-351; default `dropna=True` silently drops NaN-keyed rows. -/
def dPairKeys (base : List DRow) : List (Cell × Cell) :=
  firstKeys (base.filterMap (fun r =>
    match r.bmSlot, r.brandSlot with
    | some m, some b => some (m, b)
    | _, _ => none))

/-- one brand subtotal row: group sums over `base`, `asin = Brand + " Total"`,
`order = 1` -- app2.py:347-353 -/
def mkBrandTotal (base : List DRow) (mb : Cell × Cell) : DRow :=
  let g := base.filter (fun r =>
    decide (r.bmSlot = some mb.1) && decide (r.brandSlot = some mb.2))
  ⟨some mb.1, some mb.2, mb.2.toStr ++ " Total", sumBy g (fun r => r.qty),
    sumBy g (fun r => r.price), sumBy g (fun r => r.cost), 1⟩

def dBrandTotals (base : List DRow) : List DRow :=
  (dPairKeys base).map (mkBrandTotal base)

def dBmKeys (base : List DRow) : List Cell :=
  firstKeys (base.filterMap (fun r => r.bmSlot))

/-- one manager subtotal row: blank Brand, `asin = manager + " Total"`,
`order = 2` -- app2.py:356-363 -/
def mkManagerTotal (base : List DRow) (m : Cell) : DRow :=
  let g := base.filter (fun r => decide (r.bmSlot = some m))
  ⟨some m, some (.text ""), m.toStr ++ " Total", sumBy g (fun r => r.qty),
    sumBy g (fun r => r.price), sumBy g (fun r => r.cost), 2⟩

def dManagerTotals (base : List DRow) : List DRow :=
  (dBmKeys base).map (mkManagerTotal base)

/-- the grand total row, `order = 3` -- app2.py:366-374 -/
def dGrandTotal (base : List DRow) : DRow :=
  ⟨some (.text ""), some (.text ""), "Grand Total", sumBy base (fun r => r.qty),
    sumBy base (fun r => r.price), sumBy base (fun r => r.cost), 3⟩

/-- `combined = pd.concat([base, brand_totals, manager_totals, grand_total])`
-- app2.py:377-380 -/
def dCombined (l : List Enriched) : List DRow :=
  dBase l ++ dBrandTotals (dBase l) ++ dManagerTotals (dBase l) ++ [dGrandTotal (dBase l)]

/-- `combined["is_grand"] = (combined["asin"] == "Grand Total").astype(int)`
-- app2.py:383 -/
def isGrandFlag (r : DRow) : Nat := if r.asinSlot = "Grand Total" then 1 else 0

/-- the five-column sort key of app2.py:385-388:
`by=["is_grand","Brand Manager","Brand","order","quantity"],
ascending=[True,True,True,True,False]`. -/
def dSortKey (r : DRow) : Nat × Option Cell × Option Cell × Nat × Int :=
  (isGrandFlag r, r.bmSlot, r.brandSlot, r.ordv, r.qty)

def dKeyLtB (x y : Nat × Option Cell × Option Cell × Nat × Int) : Bool :=
  lexLtB natLtB (lexLtB okLtB (lexLtB okLtB (lexLtB natLtB intGtB))) x y

def dLtB (a b : DRow) : Bool := dKeyLtB (dSortKey a) (dSortKey b)

def dLeB (a b : DRow) : Bool := !(dLtB b a)

/-- View D: `combined.sort_values(...)` -- app2.py:385-388.  pandas' default
quicksort is unstable, so any comparison sort realizes the same contract;
we use insertion sort. -/
def viewD (l : List Enriched) : List DRow :=
  List.insertionSort (fun a b => dLeB a b = true) (dCombined l)

/-! ## Concrete rows used by witnesses and counterexamples -/

def pmRowA : PmRow := ⟨.text "A1", .text "Jo", .text "Acme", .text "V1", .num 40⟩

def pmRowADup : PmRow := ⟨.text "A1", .text "Meg", .text "Blurb", .text "V9", .num 77⟩

def orderMatched : OrderRow :=
  ⟨.text "A1", .num 2, .num 100, .text "Widget", .text "Shipped", 0⟩

def orderUnmatched : OrderRow :=
  ⟨.text "ZZ", .num 3, .num 50, .text "Gadget", .text "Shipped", 0⟩

def orderNoAsin : OrderRow :=
  ⟨.null, .num 4, .num 25, .text "Doodad", .text "Shipped", 1⟩

/-- an enriched row whose price text does not parse as a number. -/
def rowBadPrice : Enriched :=
  ⟨"A1", .num 1, .text "abc", .text "Widget", .text "Shipped", 0, none, none,
    .text "nan", 0⟩

/-- an enriched row whose price is numeric-looking text. -/
def rowTextPrice : Enriched :=
  ⟨"A1", .num 1, .text "100", .text "Widget", .text "Shipped", 0, none, none,
    .text "nan", 0⟩

/-- a one-order filtered working set (everything matched). -/
def wSmall : List Enriched := filterStage (enrichAll [pmRowA] [orderMatched])

/-- a two-order filtered working set; the second order has no reference match,
so its brand and brand-manager are NaN after enrichment. -/
def wTwo : List Enriched :=
  filterStage (enrichAll [pmRowA] [orderMatched, orderUnmatched])

/-! # Lemmas -/

/-! ## `firstKeys` -/

theorem mem_firstKeysAux {α : Type} [DecidableEq α] (a : α) :
    ∀ (l seen : List α), a ∈ firstKeysAux seen l ↔ a ∈ l ∧ a ∉ seen := by
  intro l
  induction l with
  | nil => intro seen; simp [firstKeysAux]
  | cons x xs ih =>
    intro seen
    by_cases hx : x ∈ seen
    · rw [firstKeysAux, if_pos hx, ih]
      constructor
      · rintro ⟨h1, h2⟩; exact ⟨List.mem_cons_of_mem _ h1, h2⟩
      · rintro ⟨h1, h2⟩
        rcases List.mem_cons.mp h1 with rfl | h1'
        · exact absurd hx h2
        · exact ⟨h1', h2⟩
    · rw [firstKeysAux, if_neg hx]
      constructor
      · intro h
        rcases List.mem_cons.mp h with rfl | h'
        · exact ⟨List.mem_cons_self _ _, hx⟩
        · have := (ih (x :: seen)).mp h'
          exact ⟨List.mem_cons_of_mem _ this.1,
            fun hs => this.2 (List.mem_cons_of_mem _ hs)⟩
      · rintro ⟨h1, h2⟩
        rcases List.mem_cons.mp h1 with rfl | h1'
        · exact List.mem_cons_self _ _
        · by_cases hax : a = x
          · subst hax; exact List.mem_cons_self _ _
          · refine List.mem_cons_of_mem _ ((ih (x :: seen)).mpr ⟨h1', ?_⟩)
            intro hs
            rcases List.mem_cons.mp hs with h | h
            · exact hax h
            · exact h2 h

theorem mem_firstKeys {α : Type} [DecidableEq α] {a : α} {l : List α} :
    a ∈ firstKeys l ↔ a ∈ l := by
  rw [firstKeys, mem_firstKeysAux]; simp

theorem nodup_firstKeysAux {α : Type} [DecidableEq α] :
    ∀ (l seen : List α), (firstKeysAux seen l).Nodup := by
  intro l
  induction l with
  | nil => intro seen; simp [firstKeysAux]
  | cons x xs ih =>
    intro seen
    by_cases hx : x ∈ seen
    · rw [firstKeysAux, if_pos hx]; exact ih seen
    · rw [firstKeysAux, if_neg hx]
      refine List.nodup_cons.mpr ⟨?_, ih (x :: seen)⟩
      intro hmem
      exact ((mem_firstKeysAux x xs (x :: seen)).mp hmem).2 (List.mem_cons_self _ _)

theorem nodup_firstKeys {α : Type} [DecidableEq α] (l : List α) :
    (firstKeys l).Nodup := nodup_firstKeysAux l []

/-! ## Sums over filtered lists -/

theorem sumBy_append {α : Type} (l1 l2 : List α) (f : α → Int) :
    sumBy (l1 ++ l2) f = sumBy l1 f + sumBy l2 f := by
  simp [sumBy]

theorem sumBy_split {α : Type} (l : List α) (p : α → Bool) (f : α → Int) :
    sumBy l f = sumBy (l.filter p) f + sumBy (l.filter (fun a => !(p a))) f := by
  induction l with
  | nil => simp [sumBy]
  | cons x xs ih =>
    by_cases h : p x <;>
      simp only [List.filter_cons, h, Bool.not_true, Bool.not_false, if_pos, if_neg,
        Bool.false_eq_true, not_false_eq_true, sumBy, List.map_cons, List.sum_cons,
        ite_true, ite_false] <;>
      simp only [sumBy] at ih <;> omega

theorem filter_map_swap {α β : Type} (f : α → β) (p : β → Bool) (l : List α) :
    (l.map f).filter p = (l.filter (fun a => p (f a))).map f := by
  induction l with
  | nil => rfl
  | cons x xs ih =>
    by_cases h : p (f x) <;> simp [List.filter_cons, h, ih]

/-- Summing group sums over a complete, duplicate-free list of group keys
equals summing over all rows that carry a key at all (rows with a NaN key,
`key r = none`, are dropped by the groupby). -/
theorem sum_groups {α κ : Type} [DecidableEq κ] (key : α → Option κ) (f : α → Int) :
    ∀ (ks : List κ) (l : List α), ks.Nodup →
      (∀ r ∈ l, ∀ k, key r = some k → k ∈ ks) →
      (ks.map (fun k => sumBy (l.filter (fun r => decide (key r = some k))) f)).sum
        = sumBy (l.filter (fun r => (key r).isSome)) f := by
  intro ks
  induction ks with
  | nil =>
    intro l _ hcomp
    have hnil : l.filter (fun r => (key r).isSome) = [] := by
      rw [List.filter_eq_nil_iff]
      intro r hr hsome
      match hk : key r with
      | none => rw [hk] at hsome; simp at hsome
      | some k => simpa using hcomp r hr k hk
    simp [hnil, sumBy]
  | cons k ks ih =>
    intro l hnd hcomp
    have hnd' := (List.nodup_cons.mp hnd).2
    have hknotin := (List.nodup_cons.mp hnd).1
    set l' := l.filter (fun r => !(decide (key r = some k))) with hl'
    have hcomp' : ∀ r ∈ l', ∀ k', key r = some k' → k' ∈ ks := by
      intro r hr k' hk'
      have hrl := List.mem_filter.mp hr
      have := hcomp r hrl.1 k' hk'
      rcases List.mem_cons.mp this with rfl | h
      · exfalso
        have := hrl.2
        rw [hk'] at this
        simp at this
      · exact h
    have hsub : ∀ k', k' ∈ ks →
        l.filter (fun r => decide (key r = some k'))
          = l'.filter (fun r => decide (key r = some k')) := by
      intro k' hk'
      rw [hl', List.filter_filter]
      apply List.filter_congr
      intro r _
      by_cases h : key r = some k'
      · have hne : k' ≠ k := fun he => hknotin (he ▸ hk')
        simp [h, Option.some.injEq, hne]
      · simp [h]
    have hmapeq :
        (ks.map (fun k' => sumBy (l.filter (fun r => decide (key r = some k'))) f))
          = (ks.map (fun k' => sumBy (l'.filter (fun r => decide (key r = some k'))) f)) := by
      apply List.map_congr_left
      intro k' hk'
      rw [hsub k' hk']
    have hih := ih l' hnd' hcomp'
    have hsplit := sumBy_split (l.filter (fun r => (key r).isSome)) f
      (p := fun r => decide (key r = some k))
    rw [List.filter_filter, List.filter_filter] at hsplit
    have he1 : l.filter (fun r => decide (key r = some k) && (key r).isSome)
        = l.filter (fun r => decide (key r = some k)) := by
      apply List.filter_congr
      intro r _
      by_cases h : key r = some k <;> simp [h]
    have he2 : l.filter (fun r => !(decide (key r = some k)) && (key r).isSome)
        = l'.filter (fun r => (key r).isSome) := by
      rw [hl', List.filter_filter]
      apply List.filter_congr
      intro r _
      by_cases h : key r = some k <;> simp [h]
    rw [he1, he2] at hsplit
    rw [List.map_cons, List.sum_cons, hmapeq, hih, hsplit]

/-! ## `find?` helpers -/

theorem find?_map_of_key {κ α : Type} (mk : κ → α) (p : α → Bool) (k : κ)
    (hk : p (mk k) = true) (huniq : ∀ k', p (mk k') = true → k' = k) :
    ∀ ks : List κ, k ∈ ks → (ks.map mk).find? p = some (mk k) := by
  intro ks
  induction ks with
  | nil => intro h; simp at h
  | cons x xs ih =>
    intro hmem
    by_cases hx : p (mk x) = true
    · have := huniq x hx
      subst this
      simp [List.find?_cons_of_pos _ hx]
    · have hxk : x ≠ k := by
        intro h; exact hx (h ▸ hk)
      have hk' : k ∈ xs := by
        rcases List.mem_cons.mp hmem with h | h
        · exact absurd h.symm hxk
        · exact h
      rw [List.map_cons, List.find?_cons_of_neg _ hx]
      exact ih hk'

/-! ## Strict sort keys -/

theorem strictOrd_natLtB : StrictOrd natLtB := by
  refine ⟨?_, ?_, ?_⟩
  · intro a b c h1 h2; simp [natLtB] at *; omega
  · intro a b h; simp [natLtB] at *; omega
  · intro a b h1 h2; simp [natLtB] at *; omega

theorem strictOrd_intGtB : StrictOrd intGtB := by
  refine ⟨?_, ?_, ?_⟩
  · intro a b c h1 h2; simp [intGtB] at *; omega
  · intro a b h; simp [intGtB] at *; omega
  · intro a b h1 h2; simp [intGtB] at *; omega

theorem charLtB_trans {a b c : Char} (h1 : charLtB a b = true)
    (h2 : charLtB b c = true) : charLtB a c = true := by
  simp only [charLtB, decide_eq_true_eq] at *
  exact lt_trans h1 h2

theorem charLtB_asymm {a b : Char} (h : charLtB a b = true) : charLtB b a = false := by
  simp only [charLtB, decide_eq_true_eq, decide_eq_false_iff_not] at *
  exact not_lt.mpr (le_of_lt h)

theorem charLtB_conn {a b : Char} (h1 : charLtB a b = false)
    (h2 : charLtB b a = false) : a = b := by
  simp only [charLtB, decide_eq_false_iff_not] at *
  exact le_antisymm (not_lt.mp h2) (not_lt.mp h1)

theorem charLtB_irrefl (a : Char) : charLtB a a = false := by
  simp [charLtB]

theorem strLtL_trans : ∀ (a b c : List Char), strLtL a b = true → strLtL b c = true →
    strLtL a c = true := by
  intro a
  induction a with
  | nil =>
    intro b c hab hbc
    cases b with
    | nil => simp [strLtL] at hab
    | cons y ys =>
      cases c with
      | nil => simp [strLtL] at hbc
      | cons z zs => simp [strLtL]
  | cons x xs ih =>
    intro b c hab hbc
    cases b with
    | nil => simp [strLtL] at hab
    | cons y ys =>
      cases c with
      | nil => simp [strLtL] at hbc
      | cons z zs =>
        simp only [strLtL, Bool.or_eq_true, Bool.and_eq_true, decide_eq_true_eq] at hab hbc ⊢
        rcases hab with h1 | ⟨hxy, h1⟩
        · rcases hbc with h2 | ⟨hyz, h2⟩
          · exact Or.inl (charLtB_trans h1 h2)
          · subst hyz; exact Or.inl h1
        · subst hxy
          rcases hbc with h2 | ⟨hyz, h2⟩
          · exact Or.inl h2
          · subst hyz; exact Or.inr ⟨rfl, ih ys zs h1 h2⟩

theorem strLtL_asymm : ∀ (a b : List Char), strLtL a b = true → strLtL b a = false := by
  intro a
  induction a with
  | nil =>
    intro b hab
    cases b with
    | nil => simp [strLtL] at hab
    | cons y ys => simp [strLtL]
  | cons x xs ih =>
    intro b hab
    cases b with
    | nil => simp [strLtL] at hab
    | cons y ys =>
      simp only [strLtL, Bool.or_eq_true, Bool.and_eq_true, decide_eq_true_eq,
        Bool.or_eq_false_iff, Bool.and_eq_false_iff, decide_eq_false_iff_not] at hab ⊢
      rcases hab with h1 | ⟨hxy, h1⟩
      · refine ⟨charLtB_asymm h1, Or.inl ?_⟩
        intro he
        rw [he, charLtB_irrefl] at h1
        simp at h1
      · subst hxy
        exact ⟨charLtB_irrefl x, Or.inr (ih ys h1)⟩

theorem strLtL_conn : ∀ (a b : List Char), strLtL a b = false → strLtL b a = false →
    a = b := by
  intro a
  induction a with
  | nil =>
    intro b hab _
    cases b with
    | nil => rfl
    | cons y ys => simp [strLtL] at hab
  | cons x xs ih =>
    intro b hab hba
    cases b with
    | nil => simp [strLtL] at hba
    | cons y ys =>
      simp only [strLtL, Bool.or_eq_false_iff, Bool.and_eq_false_iff,
        decide_eq_false_iff_not] at hab hba
      have hxy : x = y := charLtB_conn hab.1 hba.1
      subst hxy
      rcases hab.2 with h | h
      · exact absurd rfl h
      · rcases hba.2 with h' | h'
        · exact absurd rfl h'
        · rw [ih ys h h']

theorem strictOrd_strLtB : StrictOrd strLtB := by
  refine ⟨?_, ?_, ?_⟩
  · intro a b c h1 h2
    exact strLtL_trans a.data b.data c.data h1 h2
  · intro a b h
    exact strLtL_asymm a.data b.data h
  · intro a b h1 h2
    have h3 := strLtL_conn a.data b.data h1 h2
    cases a; cases b
    exact congrArg String.mk h3

theorem strictOrd_cellLtB : StrictOrd cellLtB := by
  obtain ⟨st, sa, sc⟩ := strictOrd_strLtB
  refine ⟨?_, ?_, ?_⟩
  · intro a b c h1 h2
    cases a <;> cases b <;> cases c <;>
      simp only [cellLtB, decide_eq_true_eq] at h1 h2 ⊢ <;>
      first
      | rfl
      | exact Bool.noConfusion h1
      | exact Bool.noConfusion h2
      | exact lt_trans h1 h2
      | exact st _ _ _ h1 h2
      | exact h1
      | exact h2
  · intro a b h
    cases a <;> cases b <;>
      simp only [cellLtB, decide_eq_true_eq, decide_eq_false_iff_not] at h ⊢ <;>
      first
      | rfl
      | trivial
      | exact Bool.noConfusion h
      | exact not_lt.mpr (le_of_lt h)
      | exact sa _ _ h
      | exact h
  · intro a b h1 h2
    cases a <;> cases b <;>
      simp only [cellLtB, decide_eq_false_iff_not] at h1 h2 ⊢ <;>
      first
      | rfl
      | exact Bool.noConfusion h1
      | exact Bool.noConfusion h2
      | exact congrArg Cell.num (le_antisymm (not_lt.mp h2) (not_lt.mp h1))
      | exact congrArg Cell.text (sc _ _ h1 h2)
      | exact absurd rfl h1
      | exact absurd rfl h2

theorem strictOrd_okLtB : StrictOrd okLtB := by
  obtain ⟨st, sa, sc⟩ := strictOrd_cellLtB
  refine ⟨?_, ?_, ?_⟩
  · intro a b c h1 h2
    cases a <;> cases b <;> cases c <;> simp only [okLtB] at h1 h2 ⊢ <;>
      first
      | rfl
      | exact Bool.noConfusion h1
      | exact Bool.noConfusion h2
      | exact st _ _ _ h1 h2
      | exact h1
      | exact h2
  · intro a b h
    cases a <;> cases b <;> simp only [okLtB] at h ⊢ <;>
      first
      | rfl
      | exact Bool.noConfusion h
      | exact sa _ _ h
      | exact h
  · intro a b h1 h2
    cases a <;> cases b <;> simp only [okLtB] at h1 h2 ⊢ <;>
      first
      | rfl
      | exact Bool.noConfusion h1
      | exact Bool.noConfusion h2
      | exact congrArg some (sc _ _ h1 h2)

theorem strictOrd_lexLtB {α β : Type} [DecidableEq α] {la : α → α → Bool}
    {lb : β → β → Bool} (ha : StrictOrd la) (hb : StrictOrd lb) :
    StrictOrd (lexLtB la lb) := by
  obtain ⟨hat, haa, hac⟩ := ha
  obtain ⟨hbt, hba, hbc⟩ := hb
  have hairr : ∀ a, la a a = false := by
    intro a
    by_cases h : la a a = true
    · exact haa a a h
    · simpa using h
  refine ⟨?_, ?_, ?_⟩
  · rintro ⟨a1, b1⟩ ⟨a2, b2⟩ ⟨a3, b3⟩ h1 h2
    simp only [lexLtB, Bool.or_eq_true, Bool.and_eq_true, decide_eq_true_eq] at h1 h2 ⊢
    rcases h1 with h1 | ⟨rfl, h1⟩
    · rcases h2 with h2 | ⟨rfl, h2⟩
      · exact Or.inl (hat _ _ _ h1 h2)
      · exact Or.inl h1
    · rcases h2 with h2 | ⟨rfl, h2⟩
      · exact Or.inl h2
      · exact Or.inr ⟨rfl, hbt _ _ _ h1 h2⟩
  · rintro ⟨a1, b1⟩ ⟨a2, b2⟩ h
    simp only [lexLtB, Bool.or_eq_true, Bool.and_eq_true, decide_eq_true_eq,
      Bool.or_eq_false_iff, Bool.and_eq_false_iff, decide_eq_false_iff_not] at h ⊢
    rcases h with h1 | ⟨rfl, h1⟩
    · refine ⟨haa _ _ h1, Or.inl ?_⟩
      intro he
      rw [he, hairr] at h1
      simp at h1
    · exact ⟨hairr a1, Or.inr (hba _ _ h1)⟩
  · rintro ⟨a1, b1⟩ ⟨a2, b2⟩ h1 h2
    simp only [lexLtB, Bool.or_eq_false_iff, Bool.and_eq_false_iff,
      decide_eq_false_iff_not] at h1 h2
    have hae : a1 = a2 := hac _ _ h1.1 h2.1
    subst hae
    rcases h1.2 with h | h
    · exact absurd rfl h
    · rcases h2.2 with h' | h'
      · exact absurd rfl h'
      · rw [hbc _ _ h h']

/-- the sort keys used by the scripts are all strict multi-column keys. -/
theorem strictOrd_dKeyLtB : StrictOrd dKeyLtB :=
  strictOrd_lexLtB strictOrd_natLtB
    (strictOrd_lexLtB strictOrd_okLtB
      (strictOrd_lexLtB strictOrd_okLtB
        (strictOrd_lexLtB strictOrd_natLtB strictOrd_intGtB)))

theorem strictOrd_cPairLtB : StrictOrd (fun a b => cPairLtB a b) :=
  strictOrd_lexLtB strictOrd_cellLtB strictOrd_strLtB

/-- `le := not (lt b a)` pulled back along a key projection is transitive. -/
theorem strict_le_trans {κ : Type} {lt : κ → κ → Bool} (h : StrictOrd lt)
    {x y z : κ} (h1 : lt y x = false) (h2 : lt z y = false) : lt z x = false := by
  obtain ⟨ht, ha, hc⟩ := h
  rcases hzx : lt z x with _ | _
  · rfl
  · exfalso
    rcases hxy : lt x y with _ | _
    · have := hc x y hxy h1
      subst this
      rw [hzx] at h2
      simp at h2
    · have := ht z x y hzx hxy
      rw [this] at h2
      simp at h2

/-- and total. -/
theorem strict_le_total {κ : Type} {lt : κ → κ → Bool} (h : StrictOrd lt)
    (x y : κ) : lt y x = false ∨ lt x y = false := by
  obtain ⟨_, ha, _⟩ := h
  rcases hxy : lt x y with _ | _
  · exact Or.inr rfl
  · exact Or.inl (ha x y hxy)

/-! ## Sorted lists: the last element is above every member -/

theorem pairwise_le_getLast {α : Type} {le : α → α → Prop} :
    ∀ (l : List α) (a z : α), l.Pairwise le → a ∈ l → l.getLast? = some z →
      le a z ∨ a = z := by
  intro l
  induction l with
  | nil => intro a z _ ha _; simp at ha
  | cons x xs ih =>
    intro a z hp ha hz
    cases xs with
    | nil =>
      simp at ha hz
      subst ha; subst hz
      exact Or.inr rfl
    | cons y ys =>
      rw [List.getLast?_cons_cons] at hz
      have hz_mem : z ∈ y :: ys := by
        have h1 : (y :: ys) ≠ [] := List.cons_ne_nil _ _
        rw [List.getLast?_eq_getLast _ h1] at hz
        injection hz with hz'
        rw [← hz']
        exact List.getLast_mem h1
      rcases List.mem_cons.mp ha with rfl | ha'
      · exact Or.inl ((List.pairwise_cons.mp hp).1 z hz_mem)
      · exact ih a z (List.pairwise_cons.mp hp).2 ha' hz

/-! ## The filter stage as one pass -/

theorem keepName_coerce (r : Enriched) : keepName (coercePrice r) = keepName r := rfl

theorem keepStatus_coerce (r : Enriched) : keepStatus (coercePrice r) = keepStatus r := rfl

theorem retainAmended_decomp (r : Enriched) :
    retainAmended r
      = (keepQuantity r && (keepPrice (coercePrice r) && (keepName r && keepStatus r))) := by
  unfold retainAmended keepQuantity keepPrice coercePrice coercePriceCell cellNeZero
  cases h : r.itemPrice.toNum <;> simp [h, Bool.and_assoc]

/-- Step 7 in one pass: it keeps exactly the rows satisfying `retainAmended`
and rewrites each survivor's price to its numeric coercion. -/
theorem filterStage_eq (l : List Enriched) :
    filterStage l = (l.filter retainAmended).map coercePrice := by
  unfold filterStage
  rw [filter_map_swap coercePrice keepPrice, filter_map_swap, filter_map_swap,
    List.filter_filter, List.filter_filter, List.filter_filter]
  congr 1
  apply List.filter_congr
  intro r _
  rw [keepName_coerce, keepStatus_coerce, retainAmended_decomp]
  cases keepQuantity r <;> cases keepPrice (coercePrice r) <;> cases keepName r <;>
    cases keepStatus r <;> rfl

/-- the filter predicates only read fields that `enrich` copies verbatim. -/
theorem retainAmended_enrich (pmU : List PmClean) (o : OrderRow) :
    retainAmended (enrich pmU o) = retainBase o := rfl

/-! ## Deduplication -/

theorem find?_dedupFirstAux (k : String) :
    ∀ (l : List PmClean) (seen : List String), k ∉ seen →
      (dedupFirstAux seen l).find? (fun r => r.asin == k)
        = l.find? (fun r => r.asin == k) := by
  intro l
  induction l with
  | nil => intro seen _; rfl
  | cons r rs ih =>
    intro seen hk
    by_cases hr : r.asin ∈ seen
    · simp only [dedupFirstAux, if_pos hr]
      have hne : ¬ (((fun rr : PmClean => rr.asin == k) r) = true) := by
        simp only [beq_iff_eq]
        intro he
        exact hk (he ▸ hr)
      rw [@List.find?_cons_of_neg PmClean (fun rr => rr.asin == k) r rs hne, ih seen hk]
    · simp only [dedupFirstAux, if_neg hr]
      by_cases heq : r.asin = k
      · have hpt : ((fun rr : PmClean => rr.asin == k) r) = true := by simp [heq]
        rw [@List.find?_cons_of_pos PmClean (fun rr => rr.asin == k) r
            (dedupFirstAux (r.asin :: seen) rs) hpt,
          @List.find?_cons_of_pos PmClean (fun rr => rr.asin == k) r rs hpt]
      · have hpf : ¬ (((fun rr : PmClean => rr.asin == k) r) = true) := by simp [heq]
        rw [@List.find?_cons_of_neg PmClean (fun rr => rr.asin == k) r
            (dedupFirstAux (r.asin :: seen) rs) hpf,
          @List.find?_cons_of_neg PmClean (fun rr => rr.asin == k) r rs hpf]
        refine ih (r.asin :: seen) ?_
        intro hmem
        rcases List.mem_cons.mp hmem with h | h
        · exact heq h.symm
        · exact hk h

theorem mem_dedupFirstAux :
    ∀ (l : List PmClean) (seen : List String) (r : PmClean),
      r ∈ dedupFirstAux seen l → r ∈ l := by
  intro l
  induction l with
  | nil => intro seen r h; simp [dedupFirstAux] at h
  | cons x xs ih =>
    intro seen r h
    by_cases hx : x.asin ∈ seen
    · simp only [dedupFirstAux, if_pos hx] at h
      exact List.mem_cons_of_mem _ (ih seen r h)
    · simp only [dedupFirstAux, if_neg hx] at h
      rcases List.mem_cons.mp h with rfl | h'
      · exact List.mem_cons_self _ _
      · exact List.mem_cons_of_mem _ (ih (x.asin :: seen) r h')

/-! ## Singleton filtering and unmatched enrichment -/

theorem filterStage_singleton (r : Enriched) :
    filterStage [r] = (if retainAmended r = true then [coercePrice r] else []) := by
  rw [filterStage_eq]
  by_cases h : retainAmended r = true
  · simp [List.filter_cons, h]
  · simp only [Bool.not_eq_true] at h
    simp [List.filter_cons, h]

theorem enrich_unmatched (pmU : List PmClean) (o : OrderRow)
    (h : pmU.find? (fun r => r.asin == strTrim o.asin.toStr) = none) :
    (enrich pmU o).brandManager = none ∧ (enrich pmU o).brand = none
      ∧ (enrich pmU o).vendorSku = Cell.text "nan" ∧ (enrich pmU o).cost = 0 := by
  unfold enrich lookCell
  simp only [h, Option.map_none]
  refine ⟨rfl, rfl, rfl, rfl⟩

/-! ## Views A/B: the pivot totals count exactly the rows with a present key -/

theorem viewRowQty_eq (l : List Enriched) (key : Enriched → Option Cell) (k : Cell) :
    viewRowQty l key k
      = sumBy (l.filter (fun r => decide (key r = some k))) qtyNum := by
  unfold viewRowQty pivotCellQty dateCols
  have hmain := sum_groups (fun r : Enriched => some r.datev) qtyNum
    (firstKeys (l.map (fun r => r.datev)))
    (l.filter (fun r => decide (key r = some k)))
    (nodup_firstKeys _)
    (by
      intro r hr d hd
      injection hd with hd'
      subst hd'
      exact mem_firstKeys.mpr (List.mem_map.mpr ⟨r, (List.mem_filter.mp hr).1, rfl⟩))
  have hinner : ∀ d : Nat,
      (l.filter (fun r => decide (key r = some k) && decide (r.datev = d)))
        = (l.filter (fun r => decide (key r = some k))).filter
            (fun r => decide ((some r.datev : Option Nat) = some d)) := by
    intro d
    rw [List.filter_filter]
    apply List.filter_congr
    intro r _
    by_cases h1 : key r = some k <;> by_cases h2 : r.datev = d <;> simp [h1, h2]
  have hren : ((firstKeys (l.map (fun r => r.datev))).map
        (fun d => sumBy (l.filter
          (fun r => decide (key r = some k) && decide (r.datev = d))) qtyNum)).sum
      = ((firstKeys (l.map (fun r => r.datev))).map
        (fun d => sumBy ((l.filter (fun r => decide (key r = some k))).filter
          (fun r => decide ((some r.datev : Option Nat) = some d))) qtyNum)).sum := by
    congr 1
    apply List.map_congr_left
    intro d _
    rw [hinner d]
  rw [hren, hmain]
  congr 1
  apply List.filter_eq_self.mpr
  intro r _
  simp

theorem viewQtyTotal_eq (l : List Enriched) (key : Enriched → Option Cell) :
    viewQtyTotal l key = sumBy (l.filter (fun r => (key r).isSome)) qtyNum := by
  unfold viewQtyTotal rowKeysBy
  have hmap : ((firstKeys (l.filterMap key)).map (viewRowQty l key))
      = ((firstKeys (l.filterMap key)).map
          (fun k => sumBy (l.filter (fun r => decide (key r = some k))) qtyNum)) := by
    apply List.map_congr_left
    intro k _
    exact viewRowQty_eq l key k
  rw [hmap]
  exact sum_groups key qtyNum _ l (nodup_firstKeys _)
    (fun r hr k hk => mem_firstKeys.mpr (List.mem_filterMap.mpr ⟨r, hr, hk⟩))

/-! ## View D: brand subtotal lookup -/

theorem dBrandTotals_find (base : List DRow) (m b : Cell)
    (h : ∃ r ∈ base, r.bmSlot = some m ∧ r.brandSlot = some b) :
    (dBrandTotals base).find?
        (fun t => decide (t.bmSlot = some m) && decide (t.brandSlot = some b))
      = some (mkBrandTotal base (m, b)) := by
  apply find?_map_of_key (mkBrandTotal base) _ (m, b)
  · simp [mkBrandTotal]
  · rintro ⟨m', b'⟩ hp
    simp only [mkBrandTotal, Bool.and_eq_true, decide_eq_true_eq,
      Option.some.injEq] at hp
    rw [hp.1, hp.2]
  · obtain ⟨r, hr, hm, hb⟩ := h
    unfold dPairKeys
    refine mem_firstKeys.mpr (List.mem_filterMap.mpr ⟨r, hr, ?_⟩)
    rw [hm, hb]

/-! ## The comparators, as total preorders for sorting -/

theorem cPairLeB_trans (a b c : Cell × String) (h1 : cPairLeB a b = true)
    (h2 : cPairLeB b c = true) : cPairLeB a c = true := by
  unfold cPairLeB at *
  simp only [Bool.not_eq_true'] at *
  exact strict_le_trans strictOrd_cPairLtB h1 h2

theorem cPairLeB_total (a b : Cell × String) :
    cPairLeB a b = true ∨ cPairLeB b a = true := by
  unfold cPairLeB
  simp only [Bool.not_eq_true']
  exact strict_le_total strictOrd_cPairLtB a b

theorem dLeB_trans (a b c : DRow) (h1 : dLeB a b = true) (h2 : dLeB b c = true) :
    dLeB a c = true := by
  unfold dLeB dLtB at *
  simp only [Bool.not_eq_true'] at *
  exact strict_le_trans strictOrd_dKeyLtB h1 h2

theorem dLeB_total (a b : DRow) : dLeB a b = true ∨ dLeB b a = true := by
  unfold dLeB dLtB
  simp only [Bool.not_eq_true']
  exact strict_le_total strictOrd_dKeyLtB (dSortKey a) (dSortKey b)

theorem cRows_sorted (l : List Enriched) :
    List.Pairwise
      (fun a b : CRow =>
        cPairLeB (a.brandSlot, a.asinSlot) (b.brandSlot, b.asinSlot) = true)
      (cRows l) := by
  unfold cRows
  rw [List.pairwise_map]
  haveI : IsTotal (Cell × String) (fun a b => cPairLeB a b = true) := ⟨cPairLeB_total⟩
  haveI : IsTrans (Cell × String) (fun a b => cPairLeB a b = true) := ⟨cPairLeB_trans⟩
  exact List.sorted_insertionSort (fun a b => cPairLeB a b = true) (cPairs l)

/-! # Claim theorems -/

/-- C1 (counterexample): the claim says a row whose unit-price fails numeric
coercion is dropped.  `rowBadPrice` has price text `"abc"`: its coercion
fails, the spec-side predicate `retainSpec` rejects it, yet Step 7 retains it,
because `pd.to_numeric` turns the price into NaN and `NaN != 0` is `True`. -/
theorem c1_coercion_failure_retained_cex :
    filterStage [rowBadPrice] = [coercePrice rowBadPrice]
    ∧ retainSpec rowBadPrice = false := by
  exact ⟨by decide, by decide⟩

/-- C1 (amended): the Filter retains a row iff quantity ≠ 0, the numeric
coercion of unit-price is ≠ 0 where a coercion FAILURE counts as satisfying
"≠ 0" (the row is RETAINED), product-name is present, non-blank and not "-",
and status is not exactly "Cancelled"; survivors get their price replaced by
its coercion. -/
theorem c1_filter_retention_amended (l : List Enriched) :
    filterStage l = (l.filter retainAmended).map coercePrice :=
  filterStage_eq l

/-- C4 (counterexample): the claim says every field of a surviving row is
unchanged by the Filter.  A row whose price is the text `"100"` survives, but
its price field comes out as the number 100: the filtering stage rewrites the
unit-price column in place (`app2.py:143`). -/
theorem c4_filter_mutates_price_cex :
    filterStage [rowTextPrice] = [{ rowTextPrice with itemPrice := Cell.num 100 }]
    ∧ ({ rowTextPrice with itemPrice := Cell.num 100 } : Enriched) ≠ rowTextPrice := by
  exact ⟨by decide, by decide⟩

/-- C4 (amended): the Filter removes rows and touches exactly one field of
survivors: every surviving row comes from an input row with all fields equal
EXCEPT unit-price, which is replaced by its numeric coercion. -/
theorem c4_filter_frame_amended (l : List Enriched) (r : Enriched)
    (h : r ∈ filterStage l) :
    ∃ r0, r0 ∈ l ∧ r = coercePrice r0
      ∧ r.asin = r0.asin ∧ r.quantity = r0.quantity ∧ r.productName = r0.productName
      ∧ r.itemStatus = r0.itemStatus ∧ r.datev = r0.datev
      ∧ r.brandManager = r0.brandManager ∧ r.brand = r0.brand
      ∧ r.vendorSku = r0.vendorSku ∧ r.cost = r0.cost
      ∧ r.itemPrice = coercePriceCell r0.itemPrice := by
  rw [filterStage_eq] at h
  obtain ⟨r0, hr0, hco⟩ := List.mem_map.mp h
  subst hco
  exact ⟨r0, (List.mem_filter.mp hr0).1, rfl, rfl, rfl, rfl, rfl, rfl, rfl, rfl,
    rfl, rfl, rfl⟩

theorem c4_filter_frame_witness :
    ∃ r0, r0 ∈ [rowTextPrice] ∧ coercePrice rowTextPrice = coercePrice r0
      ∧ (coercePrice rowTextPrice).asin = r0.asin
      ∧ (coercePrice rowTextPrice).quantity = r0.quantity
      ∧ (coercePrice rowTextPrice).productName = r0.productName
      ∧ (coercePrice rowTextPrice).itemStatus = r0.itemStatus
      ∧ (coercePrice rowTextPrice).datev = r0.datev
      ∧ (coercePrice rowTextPrice).brandManager = r0.brandManager
      ∧ (coercePrice rowTextPrice).brand = r0.brand
      ∧ (coercePrice rowTextPrice).vendorSku = r0.vendorSku
      ∧ (coercePrice rowTextPrice).cost = r0.cost
      ∧ (coercePrice rowTextPrice).itemPrice = coercePriceCell r0.itemPrice :=
  c4_filter_frame_amended [rowTextPrice] (coercePrice rowTextPrice) (by decide)

/-- C5: confirmed.  Every LookupMap is built from `pm_unique`
(`drop_duplicates(keep="first")`): looking an identifier up there gives
exactly what looking it up in the full cleaned reference list gives, and
`find?` returns the FIRST matching row — so the first occurrence wins and
later duplicates contribute nothing, for every attribute projection `f`. -/
theorem c5_dedup_first_occurrence (pm : List PmRow) (f : PmClean → Cell) (k : String) :
    lookCell (pmUnique pm) f k = lookCell (pmCleaned pm) f k := by
  unfold lookCell pmUnique
  rw [find?_dedupFirstAux k (pmCleaned pm) [] (by simp)]

/-- C6 (counterexample): the claim says an unmatched order gets NULL for
vendor-code.  It does not: `Working["Vendor SKU"].astype(str)` (app2.py:100)
turns the NaN produced by the failed lookup into the literal text "nan". -/
theorem c6_vendor_text_nan_cex :
    (enrich (pmUnique [pmRowA]) orderUnmatched).vendorSku = Cell.text "nan"
    ∧ (enrich (pmUnique [pmRowA]) orderUnmatched).vendorSku ≠ Cell.null := by
  exact ⟨by decide, by decide⟩

/-- C6 (amended): for an order whose identifier misses every LookupMap,
enrichment yields null brand and brand-manager, the TEXT "nan" (not null) for
vendor-code, and cost 0; the row still survives filtering exactly when the
filter predicates on its own fields hold. -/
theorem c6_unmatched_identifier_amended (pm : List PmRow) (o : OrderRow)
    (h : (pmUnique pm).find? (fun r => r.asin == strTrim o.asin.toStr) = none) :
    (enrich (pmUnique pm) o).brandManager = none
    ∧ (enrich (pmUnique pm) o).brand = none
    ∧ (enrich (pmUnique pm) o).vendorSku = Cell.text "nan"
    ∧ (enrich (pmUnique pm) o).cost = 0
    ∧ filterStage [enrich (pmUnique pm) o]
        = (if retainBase o = true then [coercePrice (enrich (pmUnique pm) o)] else []) := by
  obtain ⟨h1, h2, h3, h4⟩ := enrich_unmatched (pmUnique pm) o h
  refine ⟨h1, h2, h3, h4, ?_⟩
  rw [filterStage_singleton, retainAmended_enrich]

theorem c6_unmatched_identifier_witness :
    (enrich (pmUnique [pmRowA]) orderUnmatched).brandManager = none
    ∧ (enrich (pmUnique [pmRowA]) orderUnmatched).brand = none
    ∧ (enrich (pmUnique [pmRowA]) orderUnmatched).vendorSku = Cell.text "nan"
    ∧ (enrich (pmUnique [pmRowA]) orderUnmatched).cost = 0
    ∧ filterStage [enrich (pmUnique [pmRowA]) orderUnmatched]
        = (if retainBase orderUnmatched = true
            then [coercePrice (enrich (pmUnique [pmRowA]) orderUnmatched)] else []) :=
  c6_unmatched_identifier_amended [pmRowA] orderUnmatched (by decide)

/-- C3 (counterexample): the claim says a missing required column aborts the
run with a `RequiredColumnMissingError` naming the attribute and source.
No such error exists: a header missing only brand-manager and a header
missing only brand both fail with the SAME bare list-index error, whose
message names no attribute at all. -/
theorem c3_error_names_nothing_cex :
    resolveRefCols ["asin", "brand", "vendor sku", "c4", "c5", "c6", "c7", "cp"]
      = .error .listIndex
    ∧ resolveRefCols ["asin", "brand manager", "vendor sku", "c4", "c5", "c6", "c7", "cp"]
      = .error .listIndex
    ∧ strContains (errMessage .listIndex) "manager" = false
    ∧ strContains (errMessage .listIndex) "brand" = false
    ∧ strContains (errMessage .listIndex) "vendor" = false
    ∧ strContains (errMessage .listIndex) "cost" = false := by
  exact ⟨by rfl, by rfl, by decide, by decide, by decide, by decide⟩

/-- C3 (amended): when any of the four required columns cannot be resolved by
name or ordinal fallback, the run does abort — but with a generic Python
index error whose message does not name the missing logical attribute or the
source it was expected in. -/
theorem c3_missing_column_generic_failure (cols : List String)
    (h : bmColDetect cols = none ∨ brandColDetect cols = none
      ∨ vendorColDetect cols = none ∨ cpColDetect cols = none) :
    ∃ e, resolveRefCols cols = .error e
      ∧ strContains (errMessage e) "manager" = false
      ∧ strContains (errMessage e) "brand" = false
      ∧ strContains (errMessage e) "vendor" = false
      ∧ strContains (errMessage e) "cost" = false := by
  cases h1 : bmColDetect cols with
  | none =>
    refine ⟨.listIndex, ?_, by decide, by decide, by decide, by decide⟩
    unfold resolveRefCols
    rw [h1]
  | some c1 =>
    cases h2 : brandColDetect cols with
    | none =>
      refine ⟨.listIndex, ?_, by decide, by decide, by decide, by decide⟩
      unfold resolveRefCols
      rw [h1, h2]
    | some c2 =>
      cases h3 : vendorColDetect cols with
      | none =>
        refine ⟨.colsIndex 3, ?_, by decide, by decide, by decide, by decide⟩
        unfold resolveRefCols
        rw [h1, h2, h3]
      | some c3 =>
        cases h4 : cpColDetect cols with
        | none =>
          refine ⟨.colsIndex 7, ?_, by decide, by decide, by decide, by decide⟩
          unfold resolveRefCols
          rw [h1, h2, h3, h4]
        | some c4 =>
          exfalso
          rcases h with h | h | h | h
          · rw [h] at h1; exact Option.noConfusion h1
          · rw [h] at h2; exact Option.noConfusion h2
          · rw [h] at h3; exact Option.noConfusion h3
          · rw [h] at h4; exact Option.noConfusion h4

theorem c3_missing_column_generic_failure_witness :
    ∃ e, resolveRefCols ["asin"] = .error e
      ∧ strContains (errMessage e) "manager" = false
      ∧ strContains (errMessage e) "brand" = false
      ∧ strContains (errMessage e) "vendor" = false
      ∧ strContains (errMessage e) "cost" = false :=
  c3_missing_column_generic_failure ["asin"] (Or.inl (by decide))

/-- C2 (counterexample): the claim says the view totals equal the filtered
quantity sum INCLUDING rows whose brand-manager/brand is absent.  With one
unmatched order (quantity 3) alongside one matched order (quantity 2), the
filtered sum is 5 but both pivots total only 2: `pivot_table` drops rows
whose index key is NaN. -/
theorem c2_absent_attribute_breaks_totals_cex :
    viewAQtyTotal wTwo ≠ sumBy wTwo qtyNum
    ∧ viewBQtyTotal wTwo ≠ sumBy wTwo qtyNum := by
  exact ⟨by decide, by decide⟩

/-- C2 (amended): for every pair of inputs, the sum of quantity over the
per-row values of View A (resp. View B) equals the sum of quantity over the
enriched-and-filtered rows whose brand-manager (resp. brand) is PRESENT;
rows with an absent key are excluded from the pivot. -/
theorem c2_view_totals_amended (pm : List PmRow) (os : List OrderRow) :
    viewAQtyTotal (filterStage (enrichAll pm os))
      = sumBy ((filterStage (enrichAll pm os)).filter
          (fun r => (bmKey r).isSome)) qtyNum
    ∧ viewBQtyTotal (filterStage (enrichAll pm os))
      = sumBy ((filterStage (enrichAll pm os)).filter
          (fun r => (brandKey r).isSome)) qtyNum :=
  ⟨viewQtyTotal_eq _ bmKey, viewQtyTotal_eq _ brandKey⟩

/-- C7: confirmed.  View D is the combined list (base rows, brand subtotals,
manager subtotals, grand total) sorted by the five-part lexicographic key:
grand-total flag ascending, brand-manager ascending (NaN last), brand
ascending (NaN last), row-class order ascending (0 base, 1 brand subtotal,
2 manager subtotal, 3 grand total), quantity descending; the output is a
permutation of the combined rows and its last row carries the "Grand Total"
identifier. -/
theorem c7_viewD_sort_order (l : List Enriched) :
    List.Pairwise (fun a b : DRow => dLeB a b = true) (viewD l)
    ∧ (viewD l).Perm (dCombined l)
    ∧ ∃ z, (viewD l).getLast? = some z ∧ z.asinSlot = "Grand Total" := by
  haveI : IsTotal DRow (fun a b => dLeB a b = true) := ⟨dLeB_total⟩
  haveI : IsTrans DRow (fun a b => dLeB a b = true) := ⟨dLeB_trans⟩
  have hsorted := List.sorted_insertionSort (fun a b => dLeB a b = true) (dCombined l)
  have hperm := List.perm_insertionSort (fun a b => dLeB a b = true) (dCombined l)
  refine ⟨hsorted, hperm, ?_⟩
  have hgmem : dGrandTotal (dBase l) ∈ dCombined l := by
    unfold dCombined
    simp
  have hvmem : dGrandTotal (dBase l) ∈ viewD l := (hperm.mem_iff).mpr hgmem
  have hne : viewD l ≠ [] := by
    intro hnil
    rw [hnil] at hvmem
    simp at hvmem
  obtain ⟨z, hz⟩ : ∃ z, (viewD l).getLast? = some z := by
    rw [List.getLast?_eq_getLast _ hne]
    exact ⟨_, rfl⟩
  refine ⟨z, hz, ?_⟩
  rcases pairwise_le_getLast (viewD l) (dGrandTotal (dBase l)) z hsorted hvmem hz
    with hle | heq
  · by_contra hzz
    have hflagz : isGrandFlag z = 0 := by simp [isGrandFlag, hzz]
    have hlt : dLtB z (dGrandTotal (dBase l)) = true := by
      unfold dLtB dKeyLtB lexLtB dSortKey
      simp only [isGrandFlag, dGrandTotal, natLtB, Bool.or_eq_true, Bool.and_eq_true,
        decide_eq_true_eq]
      simp
      exact Or.inl hzz
    unfold dLeB at hle
    rw [hlt] at hle
    simp at hle
  · rw [← heq]
    rfl

/-- C8: confirmed.  For every (brand-manager, brand) group that occurs among
View D's base rows, the brand-subtotal table contains exactly the row keyed
(manager, brand) with identifier-slot `"<brand> Total"` whose quantity,
revenue and cost are the column-wise sums of that group's base rows. -/
theorem c8_brand_subtotal_sums (l : List Enriched) (m b : Cell)
    (h : ∃ r ∈ dBase l, r.bmSlot = some m ∧ r.brandSlot = some b) :
    (dBrandTotals (dBase l)).find?
        (fun t => decide (t.bmSlot = some m) && decide (t.brandSlot = some b))
      = some ⟨some m, some b, b.toStr ++ " Total",
          sumBy ((dBase l).filter (fun r =>
            decide (r.bmSlot = some m) && decide (r.brandSlot = some b)))
            (fun r => r.qty),
          sumBy ((dBase l).filter (fun r =>
            decide (r.bmSlot = some m) && decide (r.brandSlot = some b)))
            (fun r => r.price),
          sumBy ((dBase l).filter (fun r =>
            decide (r.bmSlot = some m) && decide (r.brandSlot = some b)))
            (fun r => r.cost), 1⟩ :=
  dBrandTotals_find (dBase l) m b h

theorem c8_brand_subtotal_sums_witness :
    (dBrandTotals (dBase wTwo)).find?
        (fun t => decide (t.bmSlot = some (Cell.text "Jo"))
          && decide (t.brandSlot = some (Cell.text "Acme")))
      = some ⟨some (Cell.text "Jo"), some (Cell.text "Acme"),
          (Cell.text "Acme").toStr ++ " Total",
          sumBy ((dBase wTwo).filter (fun r =>
            decide (r.bmSlot = some (Cell.text "Jo"))
              && decide (r.brandSlot = some (Cell.text "Acme"))))
            (fun r => r.qty),
          sumBy ((dBase wTwo).filter (fun r =>
            decide (r.bmSlot = some (Cell.text "Jo"))
              && decide (r.brandSlot = some (Cell.text "Acme"))))
            (fun r => r.price),
          sumBy ((dBase wTwo).filter (fun r =>
            decide (r.bmSlot = some (Cell.text "Jo"))
              && decide (r.brandSlot = some (Cell.text "Acme"))))
            (fun r => r.cost), 1⟩ :=
  c8_brand_subtotal_sums wTwo (Cell.text "Jo") (Cell.text "Acme") (by decide)

/-- C9 (counterexample): the claim says View C's final synthetic row has an
empty brand-slot and identifier-slot "Grand Total".  In the `sales_06.py`
variant the index level names are `("Brand", "asin")`, so the same tuple
`("Grand Total", "")` puts the label in the BRAND slot and leaves the
identifier slot empty. -/
theorem c9_sales06_grand_slots_cex :
    (viewCSales06 wSmall).getLast? = some ⟨Cell.text "Grand Total", "", 2, 100, 40⟩
    ∧ (Cell.text "Grand Total") ≠ Cell.text ""
    ∧ ("" : String) ≠ "Grand Total" := by
  exact ⟨by decide, by decide, by decide⟩

/-- C9 (amended): for every non-empty filtered set, View C's data rows are
sorted ascending by brand then identifier (not discovery order) and one
synthetic Grand Total row is appended last, equal to the column-wise sums of
the non-total rows.  In `app2.py` its identifier-slot is "Grand Total" and
its brand-slot is empty, as the claim states; in `sales_06.py` the two slots
are swapped. -/
theorem c9_viewC_amended (l : List Enriched) (h : l ≠ []) :
    viewCApp2 l = cRows l ++ [cGrandApp2 (cRows l)]
    ∧ (cGrandApp2 (cRows l)).brandSlot = Cell.text ""
    ∧ (cGrandApp2 (cRows l)).asinSlot = "Grand Total"
    ∧ List.Pairwise (fun a b : CRow =>
        cPairLeB (a.brandSlot, a.asinSlot) (b.brandSlot, b.asinSlot) = true) (cRows l)
    ∧ (cGrandApp2 (cRows l)).qty = sumBy (cRows l) (fun r => r.qty)
    ∧ (cGrandApp2 (cRows l)).price = sumBy (cRows l) (fun r => r.price)
    ∧ (cGrandApp2 (cRows l)).cost = sumBy (cRows l) (fun r => r.cost)
    ∧ viewCSales06 l = cRows l ++ [cGrandSales06 (cRows l)]
    ∧ (cGrandSales06 (cRows l)).brandSlot = Cell.text "Grand Total"
    ∧ (cGrandSales06 (cRows l)).asinSlot = "" :=
  ⟨rfl, rfl, rfl, cRows_sorted l, rfl, rfl, rfl, rfl, rfl, rfl⟩

theorem c9_viewC_amended_witness :
    viewCApp2 wSmall = cRows wSmall ++ [cGrandApp2 (cRows wSmall)]
    ∧ (cGrandApp2 (cRows wSmall)).brandSlot = Cell.text ""
    ∧ (cGrandApp2 (cRows wSmall)).asinSlot = "Grand Total"
    ∧ List.Pairwise (fun a b : CRow =>
        cPairLeB (a.brandSlot, a.asinSlot) (b.brandSlot, b.asinSlot) = true)
        (cRows wSmall)
    ∧ (cGrandApp2 (cRows wSmall)).qty = sumBy (cRows wSmall) (fun r => r.qty)
    ∧ (cGrandApp2 (cRows wSmall)).price = sumBy (cRows wSmall) (fun r => r.price)
    ∧ (cGrandApp2 (cRows wSmall)).cost = sumBy (cRows wSmall) (fun r => r.cost)
    ∧ viewCSales06 wSmall = cRows wSmall ++ [cGrandSales06 (cRows wSmall)]
    ∧ (cGrandSales06 (cRows wSmall)).brandSlot = Cell.text "Grand Total"
    ∧ (cGrandSales06 (cRows wSmall)).asinSlot = "" :=
  c9_viewC_amended wSmall (by decide)

/-- C10: confirmed.  Identifier cleaning removes rows only on the reference
side: order-side normalization (`astype(str).str.strip()`) never drops a
record, so an order whose identifier text form is "" or "nan" is kept, is
absent from every LookupMap key set, flows through enrichment with null
brand and brand-manager and cost 0, and reaches the outputs exactly when the
filter predicates on its own fields hold. -/
theorem c10_blank_order_identifier (pm : List PmRow) (os : List OrderRow) (o : OrderRow)
    (h : strTrim o.asin.toStr = "" ∨ strTrim o.asin.toStr = "nan") :
    enrichAll pm os = os.map (enrich (pmUnique pm))
    ∧ (enrichAll pm os).length = os.length
    ∧ (∀ r ∈ pmUnique pm, r.asin ≠ strTrim o.asin.toStr)
    ∧ (enrich (pmUnique pm) o).brandManager = none
    ∧ (enrich (pmUnique pm) o).brand = none
    ∧ (enrich (pmUnique pm) o).cost = 0
    ∧ filterStage [enrich (pmUnique pm) o]
        = (if retainBase o = true then [coercePrice (enrich (pmUnique pm) o)] else []) := by
  have hkeys : ∀ r ∈ pmUnique pm, r.asin ≠ strTrim o.asin.toStr := by
    intro r hr
    have hrc : r ∈ pmCleaned pm := mem_dedupFirstAux _ _ r hr
    have hflt := (List.mem_filter.mp hrc).2
    simp only [Bool.and_eq_true, decide_eq_true_eq] at hflt
    rcases h with h | h
    · rw [h]; exact hflt.1
    · rw [h]; exact hflt.2
  have hfind : (pmUnique pm).find? (fun r => r.asin == strTrim o.asin.toStr) = none := by
    rw [List.find?_eq_none]
    intro r hr
    simp only [beq_iff_eq]
    exact hkeys r hr
  obtain ⟨h1, h2, _, h4⟩ := enrich_unmatched (pmUnique pm) o hfind
  refine ⟨rfl, by simp [enrichAll], hkeys, h1, h2, h4, ?_⟩
  rw [filterStage_singleton, retainAmended_enrich]

theorem c10_blank_order_identifier_witness :
    enrichAll [pmRowA] [orderNoAsin] = [orderNoAsin].map (enrich (pmUnique [pmRowA]))
    ∧ (enrichAll [pmRowA] [orderNoAsin]).length = ([orderNoAsin] : List OrderRow).length
    ∧ (∀ r ∈ pmUnique [pmRowA], r.asin ≠ strTrim (OrderRow.asin orderNoAsin).toStr)
    ∧ (enrich (pmUnique [pmRowA]) orderNoAsin).brandManager = none
    ∧ (enrich (pmUnique [pmRowA]) orderNoAsin).brand = none
    ∧ (enrich (pmUnique [pmRowA]) orderNoAsin).cost = 0
    ∧ filterStage [enrich (pmUnique [pmRowA]) orderNoAsin]
        = (if retainBase orderNoAsin = true
            then [coercePrice (enrich (pmUnique [pmRowA]) orderNoAsin)] else []) :=
  c10_blank_order_identifier [pmRowA] [orderNoAsin] orderNoAsin (Or.inr (by decide))

end SalesReport
